import Mathlib

/-!
Verification of the `ash` Stash review client against its specification.

The Go sources are embedded shallowly:
  * `ReviewChange` (a `map[string]interface{}` in Go) is an association
    list from keys to `GoVal` values; lookup returns the first binding.
  * The REST layer (`gopencils`) is modelled by a `Request` record that
    captures the HTTP method, the resource path segments appended to the
    pull-request resource, the query parameters, and the body — exactly
    the data the Go code passes to `Res`, `Id`, `SetQuery`,
    `Post`/`Put`/`Delete`.
  * `fmt.Sprint` on an `interface{}` value is `goSprint`; a lookup of a
    missing key in a Go map yields the zero `interface{}` (nil), which
    `fmt.Sprint` renders as `"<nil>"`.
-/

/-- A Go `interface{}` value, as stored in a `ReviewChange` map: a string,
an integer, or nil. -/
inductive GoVal where
  | vStr (s : String)
  | vInt (n : Int)
  | vNil
deriving DecidableEq, Repr

/-- `fmt.Sprint` of a single `interface{}` value. -/
def goSprint : GoVal → String
  | GoVal.vStr s => s
  | GoVal.vInt n => toString n
  | GoVal.vNil => "<nil>"

/-- `ReviewChange` is Go's `map[string]interface{}`; modelled as an
association list (keys are unique in a Go map; `lookup` takes the first
binding). -/
def ReviewChange : Type := List (String × GoVal)

instance : DecidableEq ReviewChange := by
  unfold ReviewChange
  infer_instance

/-- `change[k]` map access: `some v` when the key is present (the comma-ok
idiom's `ok = true`), `none` otherwise. -/
def ReviewChange.lookup (c : ReviewChange) (k : String) : Option GoVal :=
  List.lookup k c

/-- Go's `v := change[k]` (single-result map read): the value when present,
the zero `interface{}` (nil) otherwise. -/
def ReviewChange.lookupZ (c : ReviewChange) (k : String) : GoVal :=
  (ReviewChange.lookup c k).getD GoVal.vNil

/-- HTTP method of a remote call issued through gopencils. -/
inductive Method where
  | POST
  | PUT
  | DELETE
deriving DecidableEq, Repr

/-- One remote call issued by the mutation applier: the method, the path
segments appended to the pull-request resource (`Res`/`Id`), the query
parameters (`SetQuery`), and the body passed to `Post`/`Put` (absent for
`Delete`). -/
structure Request where
  method : Method
  path : List String
  query : List (String × String)
  body : Option ReviewChange
deriving DecidableEq

/-- `PullRequest.addComment`: `pr.Resource.Res("comments").Post(change)`. -/
def addComment (change : ReviewChange) : Request :=
  { method := Method.POST
    path := ["comments"]
    query := []
    body := some change }

/-- `PullRequest.modifyComment`: builds `query = {"version": fmt.Sprint(change["version"])}`
and issues `Res("comments").Id(fmt.Sprint(change["id"])).SetQuery(query).Put(change)`. -/
def modifyComment (change : ReviewChange) : Request :=
  { method := Method.PUT
    path := ["comments", goSprint (ReviewChange.lookupZ change "id")]
    query := [("version", goSprint (ReviewChange.lookupZ change "version"))]
    body := some change }

/-- `PullRequest.removeComment`: builds `query = {"version": fmt.Sprint(change["version"])}`
and issues `Res("comments").Id(fmt.Sprint(change["id"])).SetQuery(query).Delete()`. -/
def removeComment (change : ReviewChange) : Request :=
  { method := Method.DELETE
    path := ["comments", goSprint (ReviewChange.lookupZ change "id")]
    query := [("version", goSprint (ReviewChange.lookupZ change "version"))]
    body := none }

/-- `PullRequest.ApplyChange`: dispatches on presence of the `"id"` and
`"text"` keys — `id` and `text` present gives `modifyComment`, `id`
without `text` gives `removeComment`, no `id` gives `addComment`. -/
def applyChange (change : ReviewChange) : Request :=
  if (ReviewChange.lookup change "id").isSome then
    if (ReviewChange.lookup change "text").isSome then
      modifyComment change
    else
      removeComment change
  else
    addComment change

/-- C1: the mutation applier selects the remote operation purely by key
presence: a create (POST to the comments resource) exactly when the change
has no `"id"`, an update (PUT) exactly when it has both `"id"` and
`"text"`, and a delete (DELETE) exactly when it has `"id"` but no
`"text"`; the method is always one of these three. -/
theorem applyChange_dispatch (change : ReviewChange) :
    ((applyChange change).method = Method.POST ↔
      ReviewChange.lookup change "id" = none) ∧
    ((applyChange change).method = Method.PUT ↔
      (ReviewChange.lookup change "id").isSome ∧
        (ReviewChange.lookup change "text").isSome) ∧
    ((applyChange change).method = Method.DELETE ↔
      (ReviewChange.lookup change "id").isSome ∧
        ReviewChange.lookup change "text" = none) ∧
    ((applyChange change).method = Method.POST ∨
      (applyChange change).method = Method.PUT ∨
      (applyChange change).method = Method.DELETE) := by
  rcases hid : ReviewChange.lookup change "id" with _ | i <;>
    rcases htext : ReviewChange.lookup change "text" with _ | t <;>
      simp [applyChange, hid, htext, addComment, modifyComment, removeComment]

/-- Witness for C1 at concrete changes: an update-shaped change (both keys),
a delete-shaped change (only `"id"`), and a create-shaped change (no
`"id"`). -/
theorem applyChange_dispatch_witness :
    (applyChange [("id", GoVal.vInt 7), ("text", GoVal.vStr "hi")]).method
        = Method.PUT ∧
    (applyChange [("id", GoVal.vInt 7), ("version", GoVal.vInt 1)]).method
        = Method.DELETE ∧
    (applyChange [("text", GoVal.vStr "hi")]).method = Method.POST := by
  refine ⟨?_, ?_, ?_⟩
  · exact (applyChange_dispatch
      [("id", GoVal.vInt 7), ("text", GoVal.vStr "hi")]).2.1.mpr
      (by constructor <;> decide)
  · exact (applyChange_dispatch
      [("id", GoVal.vInt 7), ("version", GoVal.vInt 1)]).2.2.1.mpr
      (by constructor <;> decide)
  · exact (applyChange_dispatch [("text", GoVal.vStr "hi")]).1.mpr (by decide)

/-- C4: every update (PUT) and delete (DELETE) issued by the applier
carries the change's `"version"` value as the `"version"` query parameter
and the change's `"id"` as the second path segment of the comments
resource; a create (POST) carries no query parameters at all. -/
theorem applyChange_version_query (change : ReviewChange)
    (v i : GoVal)
    (hid : ReviewChange.lookup change "id" = some i)
    (hver : ReviewChange.lookup change "version" = some v) :
    (((applyChange change).method = Method.PUT ∨
        (applyChange change).method = Method.DELETE) →
      (applyChange change).query = [("version", goSprint v)] ∧
        (applyChange change).path = ["comments", goSprint i]) ∧
    ∀ change2 : ReviewChange, ReviewChange.lookup change2 "id" = none →
      (applyChange change2).method = Method.POST ∧
        (applyChange change2).query = [] := by
  constructor
  · intro _hmethod
    unfold applyChange
    simp [hid]
    by_cases htext : (ReviewChange.lookup change "text").isSome
    · simp [htext, modifyComment, ReviewChange.lookupZ, hid, hver]
    · simp [htext, removeComment, ReviewChange.lookupZ, hid, hver]
  · intro change2 hid2
    unfold applyChange
    simp [hid2, addComment]

/-- Witness for C4 at a concrete update change and a concrete create
change. -/
theorem applyChange_version_query_witness :
    (applyChange [("id", GoVal.vInt 42), ("text", GoVal.vStr "t"),
        ("version", GoVal.vInt 3)]).query = [("version", "3")] ∧
    (applyChange [("id", GoVal.vInt 42), ("text", GoVal.vStr "t"),
        ("version", GoVal.vInt 3)]).path = ["comments", "42"] ∧
    (applyChange [("text", GoVal.vStr "new")]).query = [] := by
  have h := applyChange_version_query
    [("id", GoVal.vInt 42), ("text", GoVal.vStr "t"), ("version", GoVal.vInt 3)]
    (GoVal.vInt 3) (GoVal.vInt 42) (by decide) (by decide)
  have h1 := h.1 (Or.inl (by decide))
  have h2 := (h.2 [("text", GoVal.vStr "new")] (by decide)).2
  exact ⟨h1.1, h1.2, h2⟩

/-!
## The review session (`main.go`, `review` and `editReviewInEditor`)

The session's interactions with the outside world (Stash, the filesystem,
the editor process) are captured by a `ReviewEnv` record: whether the
fetch fails, how many diffs the fetched review holds, whether the editor
process exits abnormally, whether reading the edited file back fails
(`ReadReview`'s MalformedDocument case), and the list of changes
`Compare` produces, each paired with whether `pr.ApplyChange` returns an
error for it (any error: a version conflict or an unclassified failure —
the Go code does not inspect the error).

`logger.Fatal` (go-logging) logs and calls `os.Exit(1)`; `logger.Critical`
only logs.  The model therefore ends the session at every `Fatal` call and
continues past every `Critical` call, exactly as the Go control flow does.
-/

/-- External-world outcomes a review session can encounter. -/
structure ReviewEnv where
  fetchFails : Bool
  diffCount : Nat
  editorFails : Bool
  readFails : Bool
  changes : List (ReviewChange × Bool)
deriving DecidableEq

/-- How the session ended: `fetchFatal` is `logger.Fatal(err)` after the
download, `fileNotFound` is the "Specified file is not found in pull
request." message followed by `os.Exit(1)`, `editorFatal` is
`logger.Fatal(err)` inside `editReviewInEditor` when the editor process
fails, `readFatal` is `logger.Fatal(err)` after `ReadReview` fails,
`noChanges` is `os.Exit(2)`, and `completed` is falling off the end of
`review`. -/
inductive SessionExit where
  | fetchFatal
  | fileNotFound
  | editorFatal
  | readFatal
  | noChanges
  | completed
deriving DecidableEq

/-- Observable outcome of a session: how it exited, whether the temporary
review file was created and whether `os.Remove` ran on it, whether the
editor was opened, whether the edited file was read back and compared,
the `(i+1, total)` progress lines printed by the apply loop, the changes
passed to `ApplyChange` in order, and the changes whose failure was
reported via `logger.Critical`. -/
structure ReviewOutcome where
  exit : SessionExit
  tmpFileCreated : Bool
  tmpFileRemoved : Bool
  editorOpened : Bool
  readBackAttempted : Bool
  compared : Bool
  progressPrinted : List (Nat × Nat)
  attempted : List ReviewChange
  failuresReported : List ReviewChange
deriving DecidableEq

/-- Result of `editReviewInEditor`: the function writes the review to the
file, runs the editor (exiting the process via `logger.Fatal` when the
editor fails), reads the file back, and compares; `changes = none` models
the `return nil, err` branch after a `ReadReview` error. -/
structure EditorOutcome where
  fatalExit : Bool
  readBackAttempted : Bool
  compared : Bool
  changes : Option (List (ReviewChange × Bool))
deriving DecidableEq

/-- `editReviewInEditor` (main.go): writes the rendered review, runs the
editor (`logger.Fatal` on error), reads the edited review back
(returning the error on failure), and otherwise compares old and new
reviews. -/
def editReviewInEditor (env : ReviewEnv) : EditorOutcome :=
  if env.editorFails then
    { fatalExit := true
      readBackAttempted := false
      compared := false
      changes := none }
  else if env.readFails then
    { fatalExit := false
      readBackAttempted := true
      compared := false
      changes := none }
  else
    { fatalExit := false
      readBackAttempted := true
      compared := true
      changes := some env.changes }

/-- The apply loop of `review` (main.go): for each change, print the
`(i+1, total)` progress line, call `ApplyChange`, and on error log it
with `logger.Critical` (which does not exit) and keep going.  Returns
the progress lines, the changes attempted, and the failures reported. -/
def applyLoop (i n : Nat) :
    List (ReviewChange × Bool) →
      List (Nat × Nat) × List ReviewChange × List ReviewChange
  | [] => ([], [], [])
  | (c, fails) :: rest =>
    let r := applyLoop (i + 1) n rest
    ((i + 1, n) :: r.1, c :: r.2.1, if fails then c :: r.2.2 else r.2.2)

/-- `review` (main.go): fetch (fatal on error), fail with "file is not
found" when the fetched changeset has zero diffs, create the temporary
file, run `editReviewInEditor` (fatal on read-back error), exit with
status 2 when no changes were detected, otherwise apply every change in
order and finally close and remove the temporary file. -/
def review (env : ReviewEnv) : ReviewOutcome :=
  if env.fetchFails then
    { exit := SessionExit.fetchFatal
      tmpFileCreated := false
      tmpFileRemoved := false
      editorOpened := false
      readBackAttempted := false
      compared := false
      progressPrinted := []
      attempted := []
      failuresReported := [] }
  else if env.diffCount = 0 then
    { exit := SessionExit.fileNotFound
      tmpFileCreated := false
      tmpFileRemoved := false
      editorOpened := false
      readBackAttempted := false
      compared := false
      progressPrinted := []
      attempted := []
      failuresReported := [] }
  else
    let ed := editReviewInEditor env
    if ed.fatalExit then
      { exit := SessionExit.editorFatal
        tmpFileCreated := true
        tmpFileRemoved := false
        editorOpened := true
        readBackAttempted := ed.readBackAttempted
        compared := ed.compared
        progressPrinted := []
        attempted := []
        failuresReported := [] }
    else
      match ed.changes with
      | none =>
        { exit := SessionExit.readFatal
          tmpFileCreated := true
          tmpFileRemoved := false
          editorOpened := true
          readBackAttempted := true
          compared := false
          progressPrinted := []
          attempted := []
          failuresReported := [] }
      | some cs =>
        if cs.isEmpty then
          { exit := SessionExit.noChanges
            tmpFileCreated := true
            tmpFileRemoved := false
            editorOpened := true
            readBackAttempted := true
            compared := true
            progressPrinted := []
            attempted := []
            failuresReported := [] }
        else
          let r := applyLoop 0 cs.length cs
          { exit := SessionExit.completed
            tmpFileCreated := true
            tmpFileRemoved := true
            editorOpened := true
            readBackAttempted := true
            compared := true
            progressPrinted := r.1
            attempted := r.2.1
            failuresReported := r.2.2 }

theorem applyLoop_attempted (cs : List (ReviewChange × Bool)) :
    ∀ i n, (applyLoop i n cs).2.1 = cs.map Prod.fst := by
  induction cs with
  | nil => intro i n; rfl
  | cons hd tl ih =>
    intro i n
    obtain ⟨c, fails⟩ := hd
    simp [applyLoop, ih]

theorem applyLoop_failures (cs : List (ReviewChange × Bool)) :
    ∀ i n, (applyLoop i n cs).2.2
      = (cs.filter (fun p => p.2)).map Prod.fst := by
  induction cs with
  | nil => intro i n; rfl
  | cons hd tl ih =>
    intro i n
    obtain ⟨c, fails⟩ := hd
    cases fails <;> simp [applyLoop, ih, List.filter]

theorem applyLoop_progress (cs : List (ReviewChange × Bool)) :
    ∀ i n, (applyLoop i n cs).1
      = (List.range cs.length).map (fun j => (i + j + 1, n)) := by
  induction cs with
  | nil => intro i n; rfl
  | cons hd tl ih =>
    intro i n
    obtain ⟨c, fails⟩ := hd
    simp [applyLoop, ih, List.range_succ_eq_map, List.map_map,
      Function.comp]
    intro a _
    omega

/-- An environment whose first change fails to apply and whose second
change succeeds. -/
def envFirstFails : ReviewEnv :=
  { fetchFails := false
    diffCount := 1
    editorFails := false
    readFails := false
    changes := [([("text", GoVal.vStr "a")], true),
      ([("id", GoVal.vInt 1), ("text", GoVal.vStr "b")], false)] }

/-- C2 counterexample: with two changes whose first fails to apply, the
failure is reported but the second change is still attempted — the loop
does not halt (`logger.Critical` only logs), contradicting the claim that
no later mutation is attempted after an unclassified failure. -/
theorem review_halt_counterexample :
    (review envFirstFails).failuresReported = [[("text", GoVal.vStr "a")]] ∧
      (review envFirstFails).attempted
        = [[("text", GoVal.vStr "a")],
          [("id", GoVal.vInt 1), ("text", GoVal.vStr "b")]] := by
  constructor <;> rfl

/-- C2 (amended): a failure while applying a mutation does not halt the
loop — every change is attempted in order, each failure is reported via
`logger.Critical`, and a `(i+1, total)` progress line is printed before
each attempt; no applied-versus-remaining summary is produced. -/
theorem review_apply_no_halt (env : ReviewEnv)
    (h1 : env.fetchFails = false) (h2 : env.diffCount ≠ 0)
    (h3 : env.editorFails = false) (h4 : env.readFails = false)
    (h5 : env.changes ≠ []) :
    (review env).attempted = env.changes.map Prod.fst ∧
      (review env).failuresReported
        = (env.changes.filter (fun p => p.2)).map Prod.fst ∧
      (review env).progressPrinted
        = (List.range env.changes.length).map
            (fun j => (j + 1, env.changes.length)) := by
  unfold review editReviewInEditor
  simp [h1, h2, h3, h4, h5, List.isEmpty_iff, applyLoop_attempted,
    applyLoop_failures, applyLoop_progress]

/-- Witness for the amended C2 at `envFirstFails`. -/
theorem review_apply_no_halt_witness :
    (review envFirstFails).attempted = envFirstFails.changes.map Prod.fst ∧
      (review envFirstFails).failuresReported
        = (envFirstFails.changes.filter (fun p => p.2)).map Prod.fst ∧
      (review envFirstFails).progressPrinted
        = (List.range envFirstFails.changes.length).map
            (fun j => (j + 1, envFirstFails.changes.length)) :=
  review_apply_no_halt envFirstFails rfl (by decide) rfl rfl (by decide)

/-- An environment with one failing change and one succeeding change,
used for the temporary-file claims. -/
def envTmpFail : ReviewEnv :=
  { fetchFails := false
    diffCount := 2
    editorFails := false
    readFails := false
    changes := [([("id", GoVal.vInt 9), ("version", GoVal.vInt 0)], true),
      ([("text", GoVal.vStr "c")], false)] }

/-- C3 counterexample: a session in which applying the first mutation
failed (its failure is reported) still removes the temporary review file
after the loop, contradicting the claim that the file is never deleted
when a mutation fails. -/
theorem review_tmpFile_counterexample :
    (review envTmpFail).tmpFileRemoved = true ∧
      (review envTmpFail).failuresReported ≠ [] := by
  constructor
  · rfl
  · decide

/-- C3 (amended): the temporary review file is removed exactly when the
apply loop runs (fetch succeeded, diffs nonempty, editor and read-back
succeeded, at least one change detected) — regardless of whether any
mutation failed to apply; on every earlier abort the file is left in
place. -/
theorem review_tmpFile_removed_iff (env : ReviewEnv) :
    (review env).tmpFileRemoved = true ↔
      env.fetchFails = false ∧ env.diffCount ≠ 0 ∧
        env.editorFails = false ∧ env.readFails = false ∧
        env.changes ≠ [] := by
  unfold review editReviewInEditor
  cases hf : env.fetchFails <;> cases he : env.editorFails <;>
    cases hr : env.readFails <;>
      by_cases hd : env.diffCount = 0 <;>
        by_cases hc : env.changes = [] <;>
          simp [hf, he, hr, hd, hc, List.isEmpty_iff]

/-- Witness for the amended C3: the file is removed in a session whose
first mutation failed to apply. -/
theorem review_tmpFile_removed_iff_witness :
    (review envTmpFail).tmpFileRemoved = true :=
  (review_tmpFile_removed_iff envTmpFail).mpr
    ⟨rfl, by decide, rfl, rfl, by decide⟩

/-- C5: when applying a mutation fails (e.g. with a version conflict),
the failure is reported for that mutation and the remaining mutations
are still processed: every change is attempted, in exactly the order the
differ emitted them. -/
theorem review_best_effort (env : ReviewEnv)
    (h1 : env.fetchFails = false) (h2 : env.diffCount ≠ 0)
    (h3 : env.editorFails = false) (h4 : env.readFails = false)
    (h5 : env.changes ≠ []) :
    (review env).attempted = env.changes.map Prod.fst ∧
      ∀ c ∈ env.changes, c.2 = true →
        c.1 ∈ (review env).failuresReported := by
  have hrep : (review env).failuresReported
      = (env.changes.filter (fun p => p.2)).map Prod.fst := by
    unfold review editReviewInEditor
    simp [h1, h2, h3, h4, h5, List.isEmpty_iff, applyLoop_failures]
  constructor
  · unfold review editReviewInEditor
    simp [h1, h2, h3, h4, h5, List.isEmpty_iff, applyLoop_attempted]
  · intro c hc hfail
    rw [hrep]
    exact List.mem_map_of_mem Prod.fst
      (List.mem_filter.mpr ⟨hc, by simp [hfail]⟩)

/-- An environment whose only change fails with a version conflict. -/
def envConflict : ReviewEnv :=
  { fetchFails := false
    diffCount := 1
    editorFails := false
    readFails := false
    changes := [([("id", GoVal.vInt 5), ("version", GoVal.vInt 1),
      ("text", GoVal.vStr "amend")], true),
      ([("text", GoVal.vStr "more")], false)] }

/-- Witness for C5 at `envConflict`. -/
theorem review_best_effort_witness :
    (review envConflict).attempted = envConflict.changes.map Prod.fst ∧
      [("id", GoVal.vInt 5), ("version", GoVal.vInt 1),
        ("text", GoVal.vStr "amend")]
        ∈ (review envConflict).failuresReported := by
  have h := review_best_effort envConflict rfl (by decide) rfl rfl (by decide)
  exact ⟨h.1, h.2 ([("id", GoVal.vInt 5), ("version", GoVal.vInt 1),
    ("text", GoVal.vStr "amend")], true) (by simp [envConflict]) rfl⟩

/-- C6: when reading the edited document back fails (`ReadReview` returns
an error — the MalformedDocument case), the session exits fatally: no
mutation is attempted and the temporary review file is not removed. -/
theorem review_malformed_fatal (env : ReviewEnv)
    (h1 : env.fetchFails = false) (h2 : env.diffCount ≠ 0)
    (h3 : env.editorFails = false) (h4 : env.readFails = true) :
    (review env).exit = SessionExit.readFatal ∧
      (review env).attempted = [] ∧
      (review env).tmpFileRemoved = false := by
  unfold review editReviewInEditor
  simp [h1, h2, h3, h4]

/-- An environment whose edited document fails to parse back. -/
def envMalformed : ReviewEnv :=
  { fetchFails := false
    diffCount := 1
    editorFails := false
    readFails := true
    changes := [] }

/-- Witness for C6 at `envMalformed`. -/
theorem review_malformed_fatal_witness :
    (review envMalformed).exit = SessionExit.readFatal ∧
      (review envMalformed).attempted = [] ∧
      (review envMalformed).tmpFileRemoved = false :=
  review_malformed_fatal envMalformed rfl (by decide) rfl rfl

/-- C7: when the editor process run returns an error, the session aborts
(`logger.Fatal` inside `editReviewInEditor`): the edited file is not
read back, no comparison happens, and no mutation is attempted. -/
theorem review_editor_fatal (env : ReviewEnv)
    (h1 : env.fetchFails = false) (h2 : env.diffCount ≠ 0)
    (h3 : env.editorFails = true) :
    (review env).exit = SessionExit.editorFatal ∧
      (review env).readBackAttempted = false ∧
      (review env).compared = false ∧
      (review env).attempted = [] := by
  unfold review editReviewInEditor
  simp [h1, h2, h3]

/-- An environment whose editor process exits abnormally. -/
def envEditorDies : ReviewEnv :=
  { fetchFails := false
    diffCount := 3
    editorFails := true
    readFails := false
    changes := [([("text", GoVal.vStr "x")], false)] }

/-- Witness for C7 at `envEditorDies`. -/
theorem review_editor_fatal_witness :
    (review envEditorDies).exit = SessionExit.editorFatal ∧
      (review envEditorDies).readBackAttempted = false ∧
      (review envEditorDies).compared = false ∧
      (review envEditorDies).attempted = [] :=
  review_editor_fatal envEditorDies rfl (by decide) rfl

/-- C8: when the fetched review holds zero diffs, the session reports the
file as not found and exits before any editing: the temporary file is
not created, the editor is not opened, and no mutation is attempted. -/
theorem review_not_found (env : ReviewEnv)
    (h1 : env.fetchFails = false) (h2 : env.diffCount = 0) :
    (review env).exit = SessionExit.fileNotFound ∧
      (review env).tmpFileCreated = false ∧
      (review env).editorOpened = false ∧
      (review env).attempted = [] := by
  unfold review
  simp [h1, h2]

/-- An environment whose fetched changeset has no diffs. -/
def envNoDiffs : ReviewEnv :=
  { fetchFails := false
    diffCount := 0
    editorFails := false
    readFails := false
    changes := [] }

/-- Witness for C8 at `envNoDiffs`. -/
theorem review_not_found_witness :
    (review envNoDiffs).exit = SessionExit.fileNotFound ∧
      (review envNoDiffs).tmpFileCreated = false ∧
      (review envNoDiffs).editorOpened = false ∧
      (review envNoDiffs).attempted = [] :=
  review_not_found envNoDiffs rfl rfl

/-!
## URI parsing (`main.go`, `parseUri`)

`parseUri` consumes the positional argument (either
`<project>/<repo>/<pr>` or `<project>/<repo>`), the `--host` and
`--project` flags, and the submatch list produced by
`reStashURL.FindStringSubmatch` on the chosen argument (the regexp engine
is an external collaborator, like the REST client; when the URL regex
matches it yields the full match plus six capture groups, the sixth of
which is the `\d+` pull-request id).  Strings are `List Char`;
`strings.Split(uri, "/")` is `goSplit '/'`; `strconv.ParseInt(s, 10, 16)`
is `goParseInt16`, whose error the Go code discards at both call sites.
-/

/-- Error kind of `strconv` parse functions: invalid character
(ErrSyntax) or value out of range (ErrRange). -/
inductive NumErr where
  | invalidNum
  | rangeErr
deriving DecidableEq

/-- A base-10 digit's value, `none` for a non-digit. -/
def digitVal (c : Char) : Option Nat :=
  if c.isDigit then some (c.toNat - 48) else none

/-- One step of decimal accumulation. -/
def digitStep (a : Nat) (c : Char) : Nat :=
  a * 10 + (c.toNat - 48)

/-- The numeric value of a digit string. -/
def natOfDigits (l : List Char) : Nat :=
  l.foldl digitStep 0

/-- The digit loop of `strconv.ParseUint`: accumulate base-10 digits,
returning 0 with ErrSyntax on a non-digit and `maxVal` with ErrRange as
soon as the accumulator would exceed `maxVal`. -/
def goParseUintLoop (maxVal : Nat) : Nat → List Char → Nat × Option NumErr
  | n, [] => (n, none)
  | n, c :: cs =>
    match digitVal c with
    | none => (0, some NumErr.invalidNum)
    | some d =>
      if maxVal < n * 10 + d then (maxVal, some NumErr.rangeErr)
      else goParseUintLoop maxVal (n * 10 + d) cs

/-- `strconv.ParseUint(s, 10, 16)`: empty input is ErrSyntax, otherwise
the digit loop with `maxVal = 1<<16 - 1`. -/
def goParseUint16 (s : List Char) : Nat × Option NumErr :=
  if s.isEmpty then (0, some NumErr.invalidNum)
  else goParseUintLoop 65535 0 s

/-- `strconv.ParseInt(s, 10, 16)`: strip an optional sign, run
`ParseUint`, propagate ErrSyntax, and clamp to the signed 16-bit range
(`32767` / `-32768`) with ErrRange when the magnitude is out of range. -/
def goParseInt16 (s : List Char) : Int × Option NumErr :=
  match s with
  | [] => (0, some NumErr.invalidNum)
  | c :: rest =>
    let p : Bool × List Char :=
      if c = '+' then (false, rest)
      else if c = '-' then (true, rest)
      else (false, c :: rest)
    let r := goParseUint16 p.2
    match r.2 with
    | some NumErr.invalidNum => (0, some NumErr.invalidNum)
    | _ =>
      if p.1 = false ∧ 32768 ≤ r.1 then ((32767 : Int), some NumErr.rangeErr)
      else if p.1 = true ∧ 32768 < r.1 then (-(32768 : Int), some NumErr.rangeErr)
      else ((if p.1 then -(r.1 : Int) else (r.1 : Int)), none)

/-- `strings.Split(s, "/")` for the single-character separator. -/
def goSplit (sep : Char) : List Char → List (List Char)
  | [] => [[]]
  | c :: cs =>
    match goSplit sep cs with
    | [] => [[]]
    | hd :: tl => if c = sep then [] :: hd :: tl else (c :: hd) :: tl

/-- The record `parseUri` returns (`host`, `project`, `repo`, `pr`). -/
structure UriResult where
  host : List Char
  project : List Char
  repo : List Char
  pr : Int
deriving DecidableEq

/-- `parseUri` (main.go): pick the positional argument (the
`<project>/<repo>` form overrides the `<project>/<repo>/<pr>` form, with
`should` = number of expected segments); if the Stash-URL regex matched,
return host/project/repo from its groups and the pull-request id parsed
with `strconv.ParseInt(…, 10, 16)`, error discarded.  Otherwise require
`--host`, split the argument on `/`, fill the fields from the segments
(the 2-segment-with-`--project` form, the 2-segment form, the ≥3-segment
form), fail unless project, repo and (when a pr is expected) a nonzero pr
were produced, and finally prefix the project with `users/` (for `~`/`%`
projects, dropping the marker byte) or `projects/`.  `none` models the
`os.Exit(1)` paths.  The byte access `result.project[0]` is only reached
when the project is nonempty, so the `[]` branch of the final match is
dead. -/
def parseUri (projRepoPr projRepo hostFlag projectFlag : Option (List Char))
    (urlMatches : List (List Char)) : Option UriResult :=
  let t0 : List Char × Nat := ([], 0)
  let t1 := match projRepoPr with
    | some u => (u, 3)
    | none => t0
  let t2 := match projRepo with
    | some u => (u, 2)
    | none => t1
  let uri := t2.1
  let should := t2.2
  if urlMatches.length ≠ 0 then
    some { host := (urlMatches.getD 1 []),
           project := (urlMatches.getD 2 []),
           repo := (urlMatches.getD 5 []),
           pr := (goParseInt16 (urlMatches.getD 6 [])).1 }
  else
    match hostFlag with
    | none => none
    | some host =>
      let parts := goSplit '/' uri
      let r0 : UriResult := { host := host, project := [], repo := [], pr := 0 }
      let r1 := if parts.length = 2 ∧ should = 3 ∧ projectFlag.isSome then
          { r0 with
            repo := (parts.getD 0 []),
            pr := (goParseInt16 (parts.getD 1 [])).1 }
        else r0
      let r2 := match projectFlag with
        | some pflag => { r1 with project := pflag }
        | none => r1
      let r3 := if parts.length = 2 ∧ should = 2 then
          { r2 with project := (parts.getD 0 []), repo := (parts.getD 1 []) }
        else r2
      let r4 := if 3 ≤ parts.length ∧ should = 3 then
          { r3 with
            project := (parts.getD 0 []),
            repo := (parts.getD 1 []),
            pr := (goParseInt16 (parts.getD 2 [])).1 }
        else r3
      if r4.project ≠ [] ∧ r4.repo ≠ [] ∧ (r4.pr ≠ (0 : Int) ∨ should = 2) then
        match r4.project with
        | [] => none
        | c :: tl =>
          some { r4 with project :=
            if c = '~' ∨ c = '%' then "users/".toList ++ tl
            else "projects/".toList ++ (c :: tl) }
      else none

theorem digitStep_le_foldl (l : List Char) :
    ∀ n : Nat, n ≤ l.foldl digitStep n := by
  induction l with
  | nil => intro n; exact Nat.le_refl n
  | cons c cs ih =>
    intro n
    calc n ≤ digitStep n c := by
          unfold digitStep
          calc n ≤ n * 10 := by omega
            _ ≤ n * 10 + (c.toNat - 48) := Nat.le_add_right _ _
      _ ≤ cs.foldl digitStep (digitStep n c) := ih _
      _ = (c :: cs).foldl digitStep n := rfl

theorem goParseUintLoop_digits (l : List Char)
    (h : ∀ c ∈ l, c.isDigit) :
    ∀ n, n ≤ 65535 →
      goParseUintLoop 65535 n l =
        if l.foldl digitStep n ≤ 65535 then (l.foldl digitStep n, none)
        else (65535, some NumErr.rangeErr) := by
  induction l with
  | nil =>
    intro n hn
    simp [goParseUintLoop, hn]
  | cons c cs ih =>
    intro n hn
    have hc : c.isDigit := h c (List.mem_cons_self c cs)
    have hdv : digitVal c = some (c.toNat - 48) := by
      unfold digitVal
      simp [hc]
    have hd2 : digitStep n c = n * 10 + (c.toNat - 48) := rfl
    rw [List.foldl_cons, hd2]
    by_cases hov : 65535 < n * 10 + (c.toNat - 48)
    · have hmono := digitStep_le_foldl cs (digitStep n c)
      rw [hd2] at hmono
      have hbig : ¬ cs.foldl digitStep (n * 10 + (c.toNat - 48)) ≤ 65535 := by
        omega
      simp [goParseUintLoop, hdv, hov, hbig]
    · have hle : n * 10 + (c.toNat - 48) ≤ 65535 := by omega
      have hrec := ih (fun x hx => h x (List.mem_cons_of_mem c hx))
        (n * 10 + (c.toNat - 48)) hle
      simp only [goParseUintLoop, hdv, if_neg hov]
      exact hrec

theorem goParseInt16_digits_overflow (l : List Char)
    (hne : l ≠ []) (hdig : ∀ c ∈ l, c.isDigit)
    (hval : 32767 < natOfDigits l) :
    goParseInt16 l = (32767, some NumErr.rangeErr) := by
  obtain ⟨c, rest, rfl⟩ := List.exists_cons_of_ne_nil hne
  have hc : c.isDigit := hdig c (List.mem_cons_self c rest)
  have hplus : ¬ c = '+' := by
    intro h
    subst h
    simp [Char.isDigit] at hc
  have hminus : ¬ c = '-' := by
    intro h
    subst h
    simp [Char.isDigit] at hc
  have hloop := goParseUintLoop_digits (c :: rest) hdig 0 (by omega)
  unfold natOfDigits at hval
  rw [List.foldl_cons] at hloop hval
  unfold goParseInt16
  simp only [hplus, hminus, if_false]
  unfold goParseUint16
  simp only [List.isEmpty_cons, Bool.false_eq_true, if_false]
  rw [hloop]
  by_cases hfit : rest.foldl digitStep (digitStep 0 c) ≤ 65535
  · rw [if_pos hfit]
    have h32 : 32768 ≤ rest.foldl digitStep (digitStep 0 c) := by omega
    simp [h32]
  · rw [if_neg hfit]
    simp

/-- C9: `parseUri` parses the pull-request number with
`strconv.ParseInt(…, 10, 16)` and discards the error, so any pull-request
id whose numeric value exceeds 32767 is silently clamped to 32767 — in
both the URL-regex branch (the `\d+` capture group) and the shorthand
`<project>/<repo>/<pr>` branch — instead of the input being rejected. -/
theorem parseUri_pr_clamped :
    (∀ (pRP pR hF prF : Option (List Char)) (m0 m1 m2 m3 m4 m5 d : List Char),
      d ≠ [] → (∀ c ∈ d, c.isDigit) → 32767 < natOfDigits d →
      parseUri pRP pR hF prF [m0, m1, m2, m3, m4, m5, d]
        = some {
            host := m1,
            project := m2,
            repo := m5,
            pr := (32767 : Int) }) ∧
    (∀ (u h : List Char) (prF : Option (List Char)) (p rp d : List Char),
      goSplit '/' u = [p, rp, d] → p ≠ [] → rp ≠ [] →
      d ≠ [] → (∀ c ∈ d, c.isDigit) → 32767 < natOfDigits d →
      (parseUri (some u) none (some h) prF []).map UriResult.pr
          = some (32767 : Int) ∧
        (parseUri (some u) none (some h) prF []).map UriResult.repo
          = some rp) := by
  constructor
  · intro pRP pR hF prF m0 m1 m2 m3 m4 m5 d hne hdig hval
    simp [parseUri, goParseInt16_digits_overflow d hne hdig hval]
  · intro u h prF p rp d hsplit hp hrp hne hdig hval
    have hclamp := goParseInt16_digits_overflow d hne hdig hval
    obtain ⟨c, tl, rfl⟩ := List.exists_cons_of_ne_nil hp
    cases prF with
    | none =>
      by_cases hm : c = '~' ∨ c = '%' <;>
        simp [parseUri, hsplit, hclamp, hrp, hm]
    | some pflag =>
      by_cases hm : c = '~' ∨ c = '%' <;>
        simp [parseUri, hsplit, hclamp, hrp, hm]

/-- Witness for C9: the URL form with pull-request id 40000 and the
shorthand form `proj/repo/40000` both come back with `pr = 32767`. -/
theorem parseUri_pr_clamped_witness :
    parseUri none none none none
        ["http://stash.local/projects/p/repos/r/pull-requests/40000".toList,
          "http://stash.local/".toList, "projects/p".toList,
          "projects".toList, "p".toList, "r".toList, "40000".toList]
      = some {
          host := "http://stash.local/".toList,
          project := "projects/p".toList,
          repo := "r".toList,
          pr := (32767 : Int) } ∧
    (parseUri (some "proj/repo/40000".toList) none
        (some "stash.local".toList) none []).map UriResult.pr
      = some (32767 : Int) := by
  constructor
  · exact parseUri_pr_clamped.1 none none none none _ _ _ _ _ _
      "40000".toList (by decide) (by decide) (by decide)
  · exact (parseUri_pr_clamped.2 "proj/repo/40000".toList
      "stash.local".toList none "proj".toList "repo".toList "40000".toList
      (by decide) (by decide) (by decide) (by decide) (by decide)
      (by decide)).1

/-!
## Password redaction (`main.go`, `CmdLineArgs.Redacted`)

`Redacted` applies the Go regexp `(\s(-p|--pass)[\s=])([^ ]+)` to the
rendered argument string: if it does not match, the string is returned
unchanged; otherwise every match has its third group (the maximal run of
non-space characters after the flag and its separator) replaced by
`$1` followed by `logging.Redact` of the FIRST match's third group.

The regexp is embedded directly (RE2 on ASCII input): `\s` is
`[\t\n\f\r ]`; the alternation `-p|--pass` is decided by the first two
characters, so the two alternatives never compete; `[^ ]+` is a greedy
maximal run with nothing after it in the pattern, so no backtracking
arises; `FindStringSubmatch` returns the leftmost match and
`ReplaceAllString` rewrites successive non-overlapping leftmost matches.
`logging.Redact` (the go-logging dependency, not part of this
repository) returns a string of `*` of the input's length. -/

/-- RE2's `\s` character class. -/
def isSpaceRE (c : Char) : Bool :=
  c = ' ' || c = '\t' || c = '\n' || c = Char.ofNat 12 || c = '\r'

/-- After `\s` and the flag alternation: match `[\s=]` then the greedy
`([^ ]+)`; returns (group 1, group 3, remainder after the match). -/
def matchSepTok (w : Char) (flag : List Char) :
    List Char → Option (List Char × List Char × List Char)
  | [] => none
  | sep :: r3 =>
    if isSpaceRE sep || sep = '=' then
      if (r3.takeWhile (fun c => c != ' ')).isEmpty then none
      else
        some (w :: flag ++ [sep], r3.takeWhile (fun c => c != ' '),
          r3.dropWhile (fun c => c != ' '))
    else none

/-- Match `(\s(-p|--pass)[\s=])([^ ]+)` at the head of the list. -/
def matchAt : List Char → Option (List Char × List Char × List Char)
  | [] => none
  | w :: r1 =>
    if isSpaceRE w then
      if r1.take 2 = ['-', 'p'] then
        matchSepTok w ['-', 'p'] (r1.drop 2)
      else if r1.take 6 = ['-', '-', 'p', 'a', 's', 's'] then
        matchSepTok w ['-', '-', 'p', 'a', 's', 's'] (r1.drop 6)
      else none
    else none

/-- `FindStringSubmatch`: the leftmost match, scanning left to right. -/
def findFirstMatch : List Char → Option (List Char × List Char × List Char)
  | [] => none
  | c :: cs =>
    match matchAt (c :: cs) with
    | some m => some m
    | none => findFirstMatch cs

theorem matchSepTok_rest_lt (w : Char) (flag r2 : List Char)
    (m : List Char × List Char × List Char)
    (h : matchSepTok w flag r2 = some m) : m.2.2.length < r2.length := by
  cases r2 with
  | nil => simp [matchSepTok] at h
  | cons sep r3 =>
    obtain ⟨g1, tok, rest⟩ := m
    by_cases hsep : isSpaceRE sep || sep = '='
    · by_cases hemp : (r3.takeWhile (fun c => c != ' ')).isEmpty
      · simp [matchSepTok, hsep, hemp] at h
      · simp [matchSepTok, hsep, hemp] at h
        obtain ⟨-, -, hrest⟩ := h
        have hsub : List.Sublist (r3.dropWhile (fun c => c != ' ')) r3 :=
          List.dropWhile_sublist _
        have hlen := hsub.length_le
        simp only [List.length_cons]
        rw [← hrest]
        omega
    · simp [matchSepTok, hsep] at h

theorem matchAt_rest_lt (l : List Char)
    (m : List Char × List Char × List Char)
    (h : matchAt l = some m) : m.2.2.length < l.length := by
  cases l with
  | nil => simp [matchAt] at h
  | cons w r1 =>
    by_cases hw : isSpaceRE w
    · by_cases h2 : r1.take 2 = ['-', 'p']
      · simp only [matchAt, hw, h2, if_true] at h
        have := matchSepTok_rest_lt w ['-', 'p'] (r1.drop 2) m h
        have hlen : (r1.drop 2).length ≤ r1.length := by
          simp [List.length_drop]
        simp only [List.length_cons]
        omega
      · by_cases h6 : r1.take 6 = ['-', '-', 'p', 'a', 's', 's']
        · simp only [matchAt, hw, h2, h6, if_true, if_false] at h
          have := matchSepTok_rest_lt w ['-', '-', 'p', 'a', 's', 's']
            (r1.drop 6) m h
          have hlen : (r1.drop 6).length ≤ r1.length := by
            simp [List.length_drop]
          simp only [List.length_cons]
          omega
        · simp [matchAt, hw, h2, h6] at h
    · simp [matchAt, hw] at h

/-- `ReplaceAllString` with replacement template `$1` followed by the
fixed replacement text `repl`: rewrite successive non-overlapping
leftmost matches, copying unmatched characters through. -/
def replaceLoop (repl : List Char) : List Char → List Char
  | [] => []
  | c :: cs =>
    match h : matchAt (c :: cs) with
    | some m => m.1 ++ repl ++ replaceLoop repl m.2.2
    | none => c :: replaceLoop repl cs
termination_by l => l.length
decreasing_by
  · exact matchAt_rest_lt _ _ h
  · simp

/-- `logging.Redact` (go-logging): a string of `*` of the same length. -/
def goRedact (s : List Char) : List Char :=
  List.replicate s.length '*'

/-- The rendered command-line argument string. -/
def CmdLineArgs : Type := List Char

/-- `CmdLineArgs.Redacted` (main.go): find the first match of the
password-flag regexp; if there is none, return the string unchanged,
otherwise replace every match with its group 1 followed by
`logging.Redact` of the first match's captured password. -/
def CmdLineArgs.Redacted (p : CmdLineArgs) : List Char :=
  match findFirstMatch p with
  | none => p
  | some m => replaceLoop (goRedact m.2.1) p

theorem takeWhile_append_all (p : Char → Bool) (xs ys : List Char)
    (hx : ∀ c ∈ xs, p c = true) :
    (xs ++ ys).takeWhile p = xs ++ ys.takeWhile p ∧
      (xs ++ ys).dropWhile p = ys.dropWhile p := by
  induction xs with
  | nil => simp
  | cons c xs' ih =>
    have hc := hx c (List.mem_cons_self c xs')
    have ih' := ih (fun d hd => hx d (List.mem_cons_of_mem c hd))
    simp [List.takeWhile_cons, List.dropWhile_cons, hc, ih'.1, ih'.2]

theorem matchSepTok_eq (w : Char) (flag : List Char) (sep : Char)
    (pass rest2 : List Char)
    (hsep : (isSpaceRE sep || sep = '=') = true)
    (hpass : pass ≠ []) (hnosp : ∀ c ∈ pass, c ≠ ' ')
    (hstop : rest2 = [] ∨ ∃ r, rest2 = ' ' :: r) :
    matchSepTok w flag (sep :: (pass ++ rest2))
      = some (w :: (flag ++ [sep]), pass, rest2) := by
  have hx : ∀ c ∈ pass, (fun c => c != ' ') c = true := by
    intro c hc
    simp [hnosp c hc]
  have hta := takeWhile_append_all (fun c => c != ' ') pass rest2 hx
  have htw : (pass ++ rest2).takeWhile (fun c => c != ' ') = pass ∧
      (pass ++ rest2).dropWhile (fun c => c != ' ') = rest2 := by
    rcases hstop with h0 | ⟨r, hr⟩
    · subst h0
      simpa using hta
    · subst hr
      simpa [List.takeWhile_cons, List.dropWhile_cons] using hta
  have hpe : pass.isEmpty = false := by
    cases pass with
    | nil => exact absurd rfl hpass
    | cons a as => rfl
  simp [matchSepTok, hsep, htw.1, htw.2, hpe]

theorem matchAt_flag (w : Char) (flag : List Char) (sep : Char)
    (pass rest2 : List Char)
    (hw : isSpaceRE w = true)
    (hflag : flag = ['-', 'p'] ∨ flag = ['-', '-', 'p', 'a', 's', 's'])
    (hsep : (isSpaceRE sep || sep = '=') = true)
    (hpass : pass ≠ []) (hnosp : ∀ c ∈ pass, c ≠ ' ')
    (hstop : rest2 = [] ∨ ∃ r, rest2 = ' ' :: r) :
    matchAt (w :: (flag ++ (sep :: (pass ++ rest2))))
      = some (w :: (flag ++ [sep]), pass, rest2) := by
  have hst := matchSepTok_eq w flag sep pass rest2 hsep hpass hnosp hstop
  rcases hflag with hf | hf <;> subst hf <;>
    simpa [matchAt, hw] using hst

theorem matchSepTok_some_shape (w : Char) (flag r2 : List Char)
    (m : List Char × List Char × List Char)
    (h : matchSepTok w flag r2 = some m) :
    ∃ (sep c : Char) (v : List Char),
      r2 = sep :: c :: v ∧ (isSpaceRE sep || sep = '=') = true ∧
        c ≠ ' ' := by
  cases r2 with
  | nil => simp [matchSepTok] at h
  | cons sep r3 =>
    by_cases hsep : (isSpaceRE sep || sep = '=') = true
    · by_cases hemp : (r3.takeWhile (fun c => c != ' ')).isEmpty
      · simp [matchSepTok, hsep, hemp] at h
      · cases r3 with
        | nil => simp at hemp
        | cons c v =>
          refine ⟨sep, c, v, rfl, hsep, ?_⟩
          intro hc
          subst hc
          simp [List.takeWhile_cons] at hemp
    · simp [matchSepTok, hsep] at h

theorem matchAt_some_shape (l : List Char)
    (m : List Char × List Char × List Char)
    (h : matchAt l = some m) :
    ∃ (w : Char) (flag : List Char) (sep c : Char) (v : List Char),
      l = w :: (flag ++ (sep :: (c :: v))) ∧ isSpaceRE w = true ∧
        (flag = ['-', 'p'] ∨ flag = ['-', '-', 'p', 'a', 's', 's']) ∧
        (isSpaceRE sep || sep = '=') = true ∧ c ≠ ' ' := by
  cases l with
  | nil => simp [matchAt] at h
  | cons w r1 =>
    by_cases hw : isSpaceRE w
    · by_cases h2 : r1.take 2 = ['-', 'p']
      · have hr1 : r1 = '-' :: 'p' :: r1.drop 2 := by
          conv_lhs => rw [← List.take_append_drop 2 r1]
          rw [h2]
          rfl
        simp only [matchAt, hw, h2, if_true] at h
        obtain ⟨sep, c, v, hsh, hsep, hc⟩ :=
          matchSepTok_some_shape w ['-', 'p'] (r1.drop 2) m h
        exact ⟨w, ['-', 'p'], sep, c, v, by rw [hr1, hsh]; rfl,
          hw, Or.inl rfl, hsep, hc⟩
      · by_cases h6 : r1.take 6 = ['-', '-', 'p', 'a', 's', 's']
        · have hr1 : r1 = '-' :: '-' :: 'p' :: 'a' :: 's' :: 's' :: r1.drop 6 := by
            conv_lhs => rw [← List.take_append_drop 6 r1]
            rw [h6]
            rfl
          simp only [matchAt, hw, h2, h6, if_true, if_false] at h
          obtain ⟨sep, c, v, hsh, hsep, hc⟩ :=
            matchSepTok_some_shape w ['-', '-', 'p', 'a', 's', 's']
              (r1.drop 6) m h
          exact ⟨w, ['-', '-', 'p', 'a', 's', 's'], sep, c, v,
            by rw [hr1, hsh]; rfl, hw, Or.inr rfl, hsep, hc⟩
        · simp [matchAt, hw, h2, h6] at h
    · simp [matchAt, hw] at h

theorem findFirstMatch_cons_match (c : Char) (cs : List Char)
    (m : List Char × List Char × List Char)
    (h : matchAt (c :: cs) = some m) :
    findFirstMatch (c :: cs) = some m := by
  simp [findFirstMatch, h]

theorem findFirstMatch_cons_nomatch (c : Char) (cs : List Char)
    (h : matchAt (c :: cs) = none) :
    findFirstMatch (c :: cs) = findFirstMatch cs := by
  simp [findFirstMatch, h]

theorem replaceLoop_cons_match (repl : List Char) (c : Char)
    (cs : List Char) (m : List Char × List Char × List Char)
    (h : matchAt (c :: cs) = some m) :
    replaceLoop repl (c :: cs) = m.1 ++ repl ++ replaceLoop repl m.2.2 := by
  rw [replaceLoop]
  split
  · next m' heq =>
      rw [h] at heq
      cases heq
      rfl
  · next heq =>
      rw [h] at heq
      cases heq

theorem replaceLoop_cons_nomatch (repl : List Char) (c : Char)
    (cs : List Char) (h : matchAt (c :: cs) = none) :
    replaceLoop repl (c :: cs) = c :: replaceLoop repl cs := by
  rw [replaceLoop]
  split
  · next m' heq =>
      rw [h] at heq
      cases heq
  · next heq => rfl

theorem replaceLoop_nil (repl : List Char) : replaceLoop repl [] = [] := by
  rw [replaceLoop]

theorem replaceLoop_no_match (repl : List Char) (l : List Char)
    (h : findFirstMatch l = none) : replaceLoop repl l = l := by
  induction l with
  | nil => exact replaceLoop_nil repl
  | cons c cs ih =>
    cases hm : matchAt (c :: cs) with
    | some m =>
      rw [findFirstMatch_cons_match c cs m hm] at h
      cases h
    | none =>
      rw [findFirstMatch_cons_nomatch c cs hm] at h
      rw [replaceLoop_cons_nomatch repl c cs hm, ih h]

theorem replaceLoop_append (repl u v : List Char)
    (hu : ∀ i, i < u.length → matchAt (List.drop i (u ++ v)) = none) :
    replaceLoop repl (u ++ v) = u ++ replaceLoop repl v := by
  induction u with
  | nil => simp
  | cons c u' ih =>
    have h0 : matchAt (c :: (u' ++ v)) = none := by
      have := hu 0 (by simp)
      simpa using this
    rw [List.cons_append, replaceLoop_cons_nomatch repl c (u' ++ v) h0,
      ih (fun i hi => by
        have := hu (i + 1) (by simp; omega)
        simpa using this)]
    rfl

theorem findFirstMatch_append (u v : List Char)
    (hu : ∀ i, i < u.length → matchAt (List.drop i (u ++ v)) = none) :
    findFirstMatch (u ++ v) = findFirstMatch v := by
  induction u with
  | nil => simp
  | cons c u' ih =>
    have h0 : matchAt (c :: (u' ++ v)) = none := by
      have := hu 0 (by simp)
      simpa using this
    rw [List.cons_append, findFirstMatch_cons_nomatch c (u' ++ v) h0,
      ih (fun i hi => by
        have := hu (i + 1) (by simp; omega)
        simpa using this)]

/-- A string contains a password-flag occurrence: somewhere in it a
whitespace character is followed by `-p` or `--pass`, then a whitespace
or `=` separator, then at least one non-space character. -/
def hasPassFlag (s : List Char) : Prop :=
  ∃ (u : List Char) (w : Char) (flag : List Char) (sep c : Char)
    (v : List Char),
    s = u ++ (w :: (flag ++ (sep :: (c :: v)))) ∧ isSpaceRE w = true ∧
      (flag = ['-', 'p'] ∨ flag = ['-', '-', 'p', 'a', 's', 's']) ∧
      (isSpaceRE sep || sep = '=') = true ∧ c ≠ ' '

theorem findFirstMatch_some_hasFlag (s : List Char)
    (m : List Char × List Char × List Char)
    (h : findFirstMatch s = some m) : hasPassFlag s := by
  induction s with
  | nil => simp [findFirstMatch] at h
  | cons a as ih =>
    cases hm : matchAt (a :: as) with
    | some m' =>
      obtain ⟨w, flag, sep, c, v, hsh, hw, hflag, hsep, hc⟩ :=
        matchAt_some_shape (a :: as) m' hm
      exact ⟨[], w, flag, sep, c, v, by simpa using hsh, hw, hflag, hsep, hc⟩
    | none =>
      rw [findFirstMatch_cons_nomatch a as hm] at h
      obtain ⟨u, w, flag, sep, c, v, hsh, hw, hflag, hsep, hc⟩ := ih h
      exact ⟨a :: u, w, flag, sep, c, v, by simp [hsh],
        hw, hflag, hsep, hc⟩

/-- C10: `CmdLineArgs.Redacted` returns any string with no password-flag
occurrence completely unchanged, and on a string of the shape
`u ⧺ w ⧺ flag ⧺ sep ⧺ pass ⧺ " " ⧺ v` — a space-class character `w`, a
`-p` or `--pass` flag, a space-or-`=` separator, a nonempty space-free
password, with no flag match starting inside `u` and none in the tail —
it replaces exactly the password with the redaction placeholder
(asterisks of the password's length), leaving everything else intact, so
the plaintext password value no longer appears at its position. -/
theorem cmdLineArgs_redacted_spec :
    (∀ s : CmdLineArgs, ¬ hasPassFlag s → CmdLineArgs.Redacted s = s) ∧
    (∀ (u : List Char) (w : Char) (flag : List Char) (sep : Char)
        (pass v : List Char),
      isSpaceRE w = true →
      (flag = ['-', 'p'] ∨ flag = ['-', '-', 'p', 'a', 's', 's']) →
      (isSpaceRE sep || sep = '=') = true →
      pass ≠ [] → (∀ c ∈ pass, c ≠ ' ') →
      (∀ i, i < u.length →
        matchAt (List.drop i
            (u ++ (w :: (flag ++ (sep :: (pass ++ (' ' :: v))))))) = none) →
      findFirstMatch (' ' :: v) = none →
      CmdLineArgs.Redacted (u ++ (w :: (flag ++ (sep :: (pass ++ (' ' :: v))))))
        = u ++ (w :: (flag ++ (sep :: (goRedact pass ++ (' ' :: v)))))) := by
  constructor
  · intro s hnp
    cases hm : findFirstMatch s with
    | none => simp [CmdLineArgs.Redacted, hm]
    | some m => exact absurd (findFirstMatch_some_hasFlag s m hm) hnp
  · intro u w flag sep pass v hw hflag hsep hpass hnosp hu hv
    have hm := matchAt_flag w flag sep pass (' ' :: v) hw hflag hsep hpass
      hnosp (Or.inr ⟨v, rfl⟩)
    have hfTail : findFirstMatch (w :: (flag ++ (sep :: (pass ++ (' ' :: v)))))
        = some (w :: (flag ++ [sep]), pass, ' ' :: v) :=
      findFirstMatch_cons_match _ _ _ hm
    have hfind :
        findFirstMatch (u ++ (w :: (flag ++ (sep :: (pass ++ (' ' :: v))))))
          = some (w :: (flag ++ [sep]), pass, ' ' :: v) := by
      rw [findFirstMatch_append u
        (w :: (flag ++ (sep :: (pass ++ (' ' :: v))))) hu, hfTail]
    unfold CmdLineArgs.Redacted
    rw [hfind]
    show replaceLoop (goRedact pass)
        (u ++ (w :: (flag ++ (sep :: (pass ++ (' ' :: v))))))
      = u ++ (w :: (flag ++ (sep :: (goRedact pass ++ (' ' :: v)))))
    rw [replaceLoop_append (goRedact pass) u
      (w :: (flag ++ (sep :: (pass ++ (' ' :: v))))) hu]
    rw [replaceLoop_cons_match (goRedact pass) w
      (flag ++ (sep :: (pass ++ (' ' :: v))))
      (w :: (flag ++ [sep]), pass, ' ' :: v) hm]
    rw [replaceLoop_no_match (goRedact pass) (' ' :: v) hv]
    simp

/-- Witness for C10: in `"[ash -p hunter2 f]"` the password `hunter2` is
replaced by seven asterisks, giving `"[ash -p ******* f]"`. -/
theorem cmdLineArgs_redacted_witness :
    CmdLineArgs.Redacted "[ash -p hunter2 f]".toList
      = "[ash -p ******* f]".toList := by
  have h := cmdLineArgs_redacted_spec.2 "[ash".toList ' ' ['-', 'p'] ' '
    "hunter2".toList "f]".toList (by decide) (Or.inl rfl) (by decide)
    (by decide) (by decide) (by decide) (by decide)
  have e1 : "[ash -p hunter2 f]".toList
      = "[ash".toList ++ (' ' :: (['-', 'p']
          ++ (' ' :: ("hunter2".toList ++ (' ' :: "f]".toList))))) := by
    decide
  have e2 : "[ash -p ******* f]".toList
      = "[ash".toList ++ (' ' :: (['-', 'p']
          ++ (' ' :: (goRedact "hunter2".toList
            ++ (' ' :: "f]".toList))))) := by
    decide
  rw [e1, e2]
  exact h
